import Mathlib

/-!
Verification of the ResizeIt front-end core (src/src/App.tsx).

Two components are embedded:

* the Compositor: the geometry computation inside the preview effect
  (`img.onload`), which, given source image dimensions and a clamped target
  rectangle, computes where to draw the source (stretch / cover / contain);
* the Output-Set Manager: the `outputs` list with its `previewIndex`, and the
  operations `addOutput`, `updateOutput`, `removeOutput`.

Numbers entering the geometry are integers (natural pixel sizes and clamped
target dimensions); the aspect-ratio arithmetic of the source is modelled
exactly over `ℚ`, with `Int.floor` / `Int.ceil` for `Math.floor` / `Math.ceil`.
-/

namespace ResizeIt

/-- `type OutputFormat = "png" | "jpeg" | "webp"`. -/
inductive OutputFormat
  | png
  | jpeg
  | webp
deriving DecidableEq

/-- `type FitMode = "cover" | "contain"`. -/
inductive FitMode
  | cover
  | contain
deriving DecidableEq

/-- `type OutputSpec = { width, height, format }`. -/
structure OutputSpec where
  width : Int
  height : Int
  format : OutputFormat
deriving DecidableEq

/-- The draw geometry computed by the preview effect: destination rectangle
`(dx, dy, drawW, drawH)` passed to `ctx.drawImage`. -/
structure Geometry where
  drawWidth : Int
  drawHeight : Int
  offsetX : Int
  offsetY : Int
deriving DecidableEq

/-- `Math.max(1, Math.min(8000, Math.floor(spec.width)))` on an integer input. -/
def clampDim (x : Int) : Int := max 1 (min 8000 x)

/-- The geometry computation of the preview effect (App.tsx lines 55-95):
stretch when `maintainAspect` is false, otherwise the cover / contain branch
on `srcAR > dstAR`. -/
def compose (srcW srcH targetW targetH : Int) (maintainAspect : Bool)
    (fit : FitMode) : Geometry :=
  if !maintainAspect then
    { drawWidth := targetW, drawHeight := targetH, offsetX := 0, offsetY := 0 }
  else
    let srcAR : ℚ := (srcW : ℚ) / (srcH : ℚ)
    let dstAR : ℚ := (targetW : ℚ) / (targetH : ℚ)
    if fit = .cover then
      if srcAR > dstAR then
        -- wider than target: height matches, width overflows
        let drawH := targetH
        let drawW := ⌈(targetH : ℚ) * srcAR⌉
        { drawWidth := drawW, drawHeight := drawH,
          offsetX := ⌊((targetW - drawW : Int) : ℚ) / 2⌋, offsetY := 0 }
      else
        -- taller than target: width matches, height overflows
        let drawW := targetW
        let drawH := ⌈(targetW : ℚ) / srcAR⌉
        { drawWidth := drawW, drawHeight := drawH,
          offsetX := 0, offsetY := ⌊((targetH - drawH : Int) : ℚ) / 2⌋ }
    else
      -- contain
      if srcAR > dstAR then
        -- wider than target: width matches, height letterboxed
        let drawW := targetW
        let drawH := ⌊(targetW : ℚ) / srcAR⌋
        { drawWidth := drawW, drawHeight := drawH,
          offsetX := 0, offsetY := ⌊((targetH - drawH : Int) : ℚ) / 2⌋ }
      else
        -- taller than target: height matches, width pillarboxed
        let drawH := targetH
        let drawW := ⌊(targetH : ℚ) * srcAR⌋
        { drawWidth := drawW, drawHeight := drawH,
          offsetX := ⌊((targetW - drawW : Int) : ℚ) / 2⌋, offsetY := 0 }

/-- The aspect-maintaining geometry exactly as the specification words it
(spec section 4.1): `srcAspect = source.width / source.height`,
`dstAspect = target.width / target.height`, and the branch formulas for
cover and contain with strict `>` tie-break. Written from the spec text,
to be compared with `compose` (which is written from the source). -/
def composeSpecAspect (srcW srcH targetW targetH : Int) (fit : FitMode) :
    Geometry :=
  let srcAspect : ℚ := (srcW : ℚ) / (srcH : ℚ)
  let dstAspect : ℚ := (targetW : ℚ) / (targetH : ℚ)
  if fit = .cover then
    if srcAspect > dstAspect then
      let drawHeight := targetH
      let drawWidth := ⌈(targetH : ℚ) * srcAspect⌉
      { drawWidth := drawWidth, drawHeight := drawHeight,
        offsetX := ⌊((targetW - drawWidth : Int) : ℚ) / 2⌋, offsetY := 0 }
    else
      let drawWidth := targetW
      let drawHeight := ⌈(targetW : ℚ) / srcAspect⌉
      { drawWidth := drawWidth, drawHeight := drawHeight,
        offsetX := 0, offsetY := ⌊((targetH - drawHeight : Int) : ℚ) / 2⌋ }
  else
    if srcAspect > dstAspect then
      let drawWidth := targetW
      let drawHeight := ⌊(targetW : ℚ) / srcAspect⌋
      { drawWidth := drawWidth, drawHeight := drawHeight,
        offsetX := 0, offsetY := ⌊((targetH - drawHeight : Int) : ℚ) / 2⌋ }
    else
      let drawHeight := targetH
      let drawWidth := ⌊(targetH : ℚ) * srcAspect⌋
      { drawWidth := drawWidth, drawHeight := drawHeight,
        offsetX := ⌊((targetW - drawWidth : Int) : ℚ) / 2⌋, offsetY := 0 }

/-- The Output-Set Manager state: the `outputs` list and `previewIndex`. -/
structure ManagerState where
  outputs : List OutputSpec
  previewIndex : Int
deriving DecidableEq

/-- `Partial<OutputSpec>`: the patch passed to `updateOutput`; a field that is
`none` is absent from the object literal. -/
structure OutputPatch where
  width : Option Int := none
  height : Option Int := none
  format : Option OutputFormat := none
deriving DecidableEq

/-- `{ ...o, ...patch }`: fields present in the patch override those of `o`. -/
def applyPatch (o : OutputSpec) (p : OutputPatch) : OutputSpec :=
  { width := p.width.getD o.width,
    height := p.height.getD o.height,
    format := p.format.getD o.format }

/-- JavaScript `prev.map((o, i) => (i === index ? { ...o, ...patch } : o))`,
with the running element index `i` made an explicit accumulator. -/
def updateAtFrom (index : Nat) (patch : OutputPatch) :
    Nat → List OutputSpec → List OutputSpec
  | _, [] => []
  | i, o :: os =>
    (if i = index then applyPatch o patch else o) ::
      updateAtFrom index patch (i + 1) os

/-- JavaScript `prev.filter((_, i) => i !== index)`, with the running element
index `i` made an explicit accumulator: an element is kept exactly when its
index differs from `index`. -/
def removeAtFrom (index : Nat) : Nat → List OutputSpec → List OutputSpec
  | _, [] => []
  | i, o :: os =>
    if i = index then removeAtFrom index (i + 1) os
    else o :: removeAtFrom index (i + 1) os

/-- `updateOutput(index, patch)` (App.tsx lines 100-102):
`setOutputs(prev => prev.map((o, i) => (i === index ? { ...o, ...patch } : o)))`. -/
def updateOutput (s : ManagerState) (index : Nat) (patch : OutputPatch) :
    ManagerState :=
  { s with outputs := updateAtFrom index patch 0 s.outputs }

/-- `addOutput()` (App.tsx lines 104-107): appends the default
`{width: 512, height: 512, format: "png"}` and sets the preview index to
`outputs.length`, the length before the append. -/
def addOutput (s : ManagerState) : ManagerState :=
  { outputs := s.outputs ++ [{ width := 512, height := 512, format := .png }],
    previewIndex := (s.outputs.length : Int) }

/-- `removeOutput(index)` (App.tsx lines 109-112): filters out position
`index` and sets the preview index to
`Math.max(0, Math.min(i, outputs.length - 2))`, `outputs.length` being the
length before the removal. -/
def removeOutput (s : ManagerState) (index : Nat) : ManagerState :=
  { outputs := removeAtFrom index 0 s.outputs,
    previewIndex := max 0 (min s.previewIndex ((s.outputs.length : Int) - 2)) }

/-- Whether the stored preview index is a valid position in `outputs`. -/
def validActive (s : ManagerState) : Prop :=
  0 ≤ s.previewIndex ∧ s.previewIndex < (s.outputs.length : Int)

instance (s : ManagerState) : Decidable (validActive s) := by
  unfold validActive; infer_instance

/-- The contain postcondition of the spec: the rectangle fits entirely within
the target bounds and at least one dimension equals the target dimension. -/
def fitsWithinTarget (g : Geometry) (targetW targetH : Int) : Prop :=
  0 ≤ g.offsetX ∧ 0 ≤ g.offsetY
  ∧ g.offsetX + g.drawWidth ≤ targetW
  ∧ g.offsetY + g.drawHeight ≤ targetH
  ∧ (g.drawWidth = targetW ∨ g.drawHeight = targetH)

/-- The cover postcondition of the spec: both drawn dimensions reach the
target's, at least one exactly, and the drawn rectangle clipped to the target
bounds is the whole target (the rectangle starts at or before the origin and
ends at or after the far corner). -/
def coversTarget (g : Geometry) (targetW targetH : Int) : Prop :=
  targetW ≤ g.drawWidth ∧ targetH ≤ g.drawHeight
  ∧ (g.drawWidth = targetW ∨ g.drawHeight = targetH)
  ∧ g.offsetX ≤ 0 ∧ g.offsetY ≤ 0
  ∧ targetW ≤ g.offsetX + g.drawWidth
  ∧ targetH ≤ g.offsetY + g.drawHeight

/-- A concrete output entry used as fixture in witness theorems. -/
def specA : OutputSpec := { width := 1, height := 1, format := .png }

/-- A second concrete output entry used as fixture in witness theorems. -/
def specB : OutputSpec := { width := 2, height := 2, format := .webp }

/-- A third concrete output entry used as fixture in witness theorems. -/
def specC : OutputSpec := { width := 100, height := 200, format := .jpeg }

/-- The default entry appended by `addOutput`. -/
def defaultSpec : OutputSpec := { width := 512, height := 512, format := .png }

namespace ListOps

lemma updateAtFrom_getElem (idx : Nat) (p : OutputPatch)
    (l : List OutputSpec) (k j : Nat) :
    (updateAtFrom idx p k l)[j]?
      = (l[j]?).map (fun o => if k + j = idx then applyPatch o p else o) := by
  induction l generalizing k j with
  | nil => simp [updateAtFrom]
  | cons a as ih =>
    cases j with
    | zero => simp [updateAtFrom]
    | succ j =>
      have harg : k + (j + 1) = (k + 1) + j := by omega
      rw [harg]
      simp [updateAtFrom, ih (k + 1) j]

lemma updateAtFrom_length (idx : Nat) (p : OutputPatch)
    (l : List OutputSpec) (k : Nat) :
    (updateAtFrom idx p k l).length = l.length := by
  induction l generalizing k with
  | nil => rfl
  | cons a as ih => simp [updateAtFrom, ih]

lemma updateAtFrom_out (idx : Nat) (p : OutputPatch)
    (l : List OutputSpec) (k : Nat) (h : k + l.length ≤ idx) :
    updateAtFrom idx p k l = l := by
  induction l generalizing k with
  | nil => rfl
  | cons a as ih =>
    have hk : ¬ k = idx := by simp at h; omega
    have has : (k + 1) + as.length ≤ idx := by simp at h; omega
    simp [updateAtFrom, hk, ih (k + 1) has]

lemma removeAtFrom_keepAll (idx : Nat) (l : List OutputSpec) :
    ∀ m, idx < m → removeAtFrom idx m l = l := by
  induction l with
  | nil => intro m _; rfl
  | cons b bs ih =>
    intro m hm
    have hm' : ¬ m = idx := by omega
    simp [removeAtFrom, hm', ih (m + 1) (by omega)]

lemma removeAtFrom_eq (idx : Nat) (l : List OutputSpec) :
    ∀ k, k ≤ idx →
      removeAtFrom idx k l = l.take (idx - k) ++ l.drop (idx - k + 1) := by
  induction l with
  | nil => intro k _; simp [removeAtFrom]
  | cons a as ih =>
    intro k hk
    by_cases hke : k = idx
    · subst hke
      simp [removeAtFrom, removeAtFrom_keepAll k as (k + 1) (by omega),
        Nat.sub_self]
    · have hlt : k < idx := lt_of_le_of_ne hk hke
      have h1 : idx - k = (idx - (k + 1)) + 1 := by omega
      simp only [removeAtFrom, if_neg hke]
      rw [ih (k + 1) (by omega), h1]
      simp

end ListOps

end ResizeIt

namespace ResizeIt

example :
    compose 1000 500 512 512 true .cover =
      { drawWidth := 1024, drawHeight := 512, offsetX := -256, offsetY := 0 } := by
  norm_num [compose]

example :
    compose 1000 500 512 512 true .contain =
      { drawWidth := 512, drawHeight := 256, offsetX := 0, offsetY := 128 } := by
  norm_num [compose]
  decide

example :
    compose 500 1000 800 600 false .cover =
      { drawWidth := 800, drawHeight := 600, offsetX := 0, offsetY := 0 } := by
  norm_num [compose]

example : (compose 10000 1 512 512 true .contain).drawHeight = 0 := by
  norm_num [compose]
  decide

/-- C7: `addOutput` appends exactly one entry `{width: 512, height: 512,
format: "png"}` at the end, leaves every existing entry unchanged in place
and order, increases the length by 1, and sets the preview index to the
length the list had before the append. -/
theorem addOutput_appends_default (s : ManagerState) :
    (addOutput s).outputs = s.outputs ++ [defaultSpec]
    ∧ (addOutput s).outputs.length = s.outputs.length + 1
    ∧ (addOutput s).previewIndex = (s.outputs.length : Int)
    ∧ ∀ i : Nat, i < s.outputs.length →
        (addOutput s).outputs[i]? = s.outputs[i]? := by
  refine ⟨rfl, by simp [addOutput], rfl, ?_⟩
  intro i hi
  show (s.outputs ++ [_])[i]? = s.outputs[i]?
  rw [List.getElem?_append]
  simp [hi]

/-- C7 witness: `addOutput` applied to a concrete one-element state. -/
theorem addOutput_appends_default_w :
    (addOutput ⟨[specC], 0⟩).outputs = [specC] ++ [defaultSpec]
    ∧ (addOutput ⟨[specC], 0⟩).outputs.length = [specC].length + 1
    ∧ (addOutput ⟨[specC], 0⟩).previewIndex
        = (([specC] : List OutputSpec).length : Int)
    ∧ ∀ i : Nat, i < [specC].length →
        (addOutput ⟨[specC], 0⟩).outputs[i]? = [specC][i]? :=
  addOutput_appends_default ⟨[specC], 0⟩

/-- C8: for a valid index, `removeOutput` removes exactly the entry at that
index; if the list becomes empty no valid active index remains; otherwise the
active index equals `max 0 (min previousActive (newLength - 1))` and is a
valid index into the remaining list; and after removing the active index of
a list of length `N > 1` the new active index is `min activeIndex (N - 2)`. -/
theorem removeOutput_valid_spec (s : ManagerState) (index : Nat)
    (hidx : index < s.outputs.length) (hact : validActive s) :
    (removeOutput s index).outputs
        = s.outputs.take index ++ s.outputs.drop (index + 1)
    ∧ (removeOutput s index).outputs.length = s.outputs.length - 1
    ∧ ((removeOutput s index).outputs = [] →
        ¬ validActive (removeOutput s index))
    ∧ ((removeOutput s index).outputs ≠ [] →
        (removeOutput s index).previewIndex
            = max 0 (min s.previewIndex
                (((removeOutput s index).outputs.length : Int) - 1))
          ∧ validActive (removeOutput s index))
    ∧ (s.previewIndex = (index : Int) → 1 < s.outputs.length →
        (removeOutput s index).previewIndex
            = min (index : Int) ((s.outputs.length : Int) - 2)) := by
  have houts : (removeOutput s index).outputs
      = s.outputs.take index ++ s.outputs.drop (index + 1) := by
    show removeAtFrom index 0 s.outputs = _
    simpa using ListOps.removeAtFrom_eq index s.outputs 0 (Nat.zero_le _)
  have hlen : (removeOutput s index).outputs.length = s.outputs.length - 1 := by
    rw [houts]
    simp only [List.length_append, List.length_take, List.length_drop]
    omega
  have hpi : (removeOutput s index).previewIndex
      = max 0 (min s.previewIndex ((s.outputs.length : Int) - 2)) := rfl
  obtain ⟨hact0, hact1⟩ := hact
  refine ⟨houts, hlen, ?_, ?_, ?_⟩
  · intro hemp hval
    obtain ⟨h1, h2⟩ := hval
    rw [hemp] at h2
    simp at h2
    omega
  · intro hne
    have hlp : (removeOutput s index).outputs.length ≠ 0 := by
      simpa [List.length_eq_zero] using hne
    have hN2 : 2 ≤ s.outputs.length := by omega
    have hcast : (((s.outputs.length - 1 : Nat)) : Int)
        = (s.outputs.length : Int) - 1 := by omega
    constructor
    · rw [hpi, hlen, hcast]
      have : (s.outputs.length : Int) - 2
          = (s.outputs.length : Int) - 1 - 1 := by omega
      rw [this]
    · have hmin : min s.previewIndex ((s.outputs.length : Int) - 2)
          ≤ (s.outputs.length : Int) - 2 := min_le_right _ _
      refine ⟨by rw [hpi]; exact le_max_left _ _, ?_⟩
      rw [hpi, hlen, hcast]
      have h2' : (2 : Int) ≤ (s.outputs.length : Int) := by omega
      have : max 0 (min s.previewIndex ((s.outputs.length : Int) - 2))
          ≤ (s.outputs.length : Int) - 2 :=
        max_le (by omega) hmin
      omega
  · intro hprev hN
    rw [hpi, hprev]
    refine max_eq_right (le_min ?_ ?_)
    · omega
    · omega

/-- C8 witness: removing the active index 1 of a concrete two-element list. -/
theorem removeOutput_valid_spec_w :
    (1 < ([specA, specB] : List OutputSpec).length ∧ validActive ⟨[specA, specB], 1⟩) ∧
    (removeOutput ⟨[specA, specB], 1⟩ 1).outputs
        = [specA, specB].take 1 ++ [specA, specB].drop 2 := by
  refine ⟨⟨by decide, by constructor <;> decide⟩, ?_⟩
  exact (removeOutput_valid_spec ⟨[specA, specB], 1⟩ 1 (by decide)
    (by constructor <;> decide)).1

/-- C9 counterexample: on a one-element list, `updateOutput` at the
out-of-range index 5 succeeds silently and returns the state unchanged —
there is no OutOfRange failure in the code. -/
theorem updateOutput_out_of_range_cex :
    updateOutput ⟨[defaultSpec], 0⟩ 5
        { width := some 100, height := none, format := none }
      = ⟨[defaultSpec], 0⟩ := rfl

/-- C9 amended: `updateOutput(index, patch)` replaces only the supplied
fields of the entry at `index`, leaving that entry's other fields, every
other entry, and the preview index unchanged; for every index that is not a
valid position it silently leaves the output list unchanged instead of
failing. -/
theorem updateOutput_spec (s : ManagerState) (index : Nat) (p : OutputPatch) :
    ((h : index < s.outputs.length) →
        (updateOutput s index p).outputs[index]?
          = some { width := p.width.getD (s.outputs.get ⟨index, h⟩).width,
                   height := p.height.getD (s.outputs.get ⟨index, h⟩).height,
                   format := p.format.getD (s.outputs.get ⟨index, h⟩).format })
    ∧ (∀ j : Nat, j ≠ index →
        (updateOutput s index p).outputs[j]? = s.outputs[j]?)
    ∧ (s.outputs.length ≤ index → (updateOutput s index p).outputs = s.outputs)
    ∧ (updateOutput s index p).previewIndex = s.previewIndex := by
  refine ⟨?_, ?_, ?_, rfl⟩
  · intro h
    show (updateAtFrom index p 0 s.outputs)[index]? = _
    rw [ListOps.updateAtFrom_getElem]
    simp [List.getElem?_eq_getElem h, applyPatch]
  · intro j hj
    show (updateAtFrom index p 0 s.outputs)[j]? = _
    rw [ListOps.updateAtFrom_getElem]
    simp [hj]
  · intro h
    show updateAtFrom index p 0 s.outputs = _
    exact ListOps.updateAtFrom_out index p s.outputs 0 (by simpa using h)

/-- C9 amended witness: with a patch on entry 1 of a concrete two-element
list, entry 0 is unchanged. -/
theorem updateOutput_spec_w :
    (0 : Nat) ≠ 1 ∧
    (updateOutput ⟨[specA, specB], 0⟩ 1
        { width := some 7, height := none,
          format := some OutputFormat.jpeg }).outputs[0]?
      = ([specA, specB] : List OutputSpec)[0]? := by
  refine ⟨by decide, ?_⟩
  exact (updateOutput_spec ⟨[specA, specB], 0⟩ 1
    { width := some 7, height := none,
      format := some OutputFormat.jpeg }).2.1 0 (by decide)

/-- C10: for an out-of-range index, `removeOutput` leaves the output list
unchanged but still recomputes the active index as
`max 0 (min previousActive (N - 2))`; in particular with
`previousActive = N - 1` and `N > 1` the active index drops to `N - 2`, so
the operation is not atomic on out-of-range input. -/
theorem removeOutput_out_of_range_spec (s : ManagerState) (index : Nat)
    (h : s.outputs.length ≤ index) :
    (removeOutput s index).outputs = s.outputs
    ∧ (removeOutput s index).previewIndex
        = max 0 (min s.previewIndex ((s.outputs.length : Int) - 2))
    ∧ (s.previewIndex = (s.outputs.length : Int) - 1 →
        1 < s.outputs.length →
        (removeOutput s index).previewIndex
            = (s.outputs.length : Int) - 2) := by
  refine ⟨?_, rfl, ?_⟩
  · show removeAtFrom index 0 s.outputs = _
    have := ListOps.removeAtFrom_eq index s.outputs 0 (Nat.zero_le _)
    simp only [Nat.sub_zero] at this
    rw [this, List.take_of_length_le h,
      List.drop_eq_nil_of_le (by omega), List.append_nil]
  · intro h1 h2
    show max 0 (min s.previewIndex ((s.outputs.length : Int) - 2)) = _
    rw [h1, min_eq_right (by omega), max_eq_right (by omega)]

/-- C10 witness: removing index 5 of a concrete two-element list with active
index 1 removes nothing but still recomputes the active index. -/
theorem removeOutput_out_of_range_spec_w :
    ([specA, specB] : List OutputSpec).length ≤ 5 ∧
    (removeOutput ⟨[specA, specB], 1⟩ 5).outputs = [specA, specB] := by
  refine ⟨by decide, ?_⟩
  exact (removeOutput_out_of_range_spec ⟨[specA, specB], 1⟩ 5 (by decide)).1

lemma compose_cover_eq (srcW srcH targetW targetH : Int) :
    compose srcW srcH targetW targetH true .cover
      = if (targetW : ℚ) / (targetH : ℚ) < (srcW : ℚ) / (srcH : ℚ) then
          { drawWidth := ⌈(targetH : ℚ) * ((srcW : ℚ) / (srcH : ℚ))⌉,
            drawHeight := targetH,
            offsetX := ⌊((targetW
                - ⌈(targetH : ℚ) * ((srcW : ℚ) / (srcH : ℚ))⌉ : Int) : ℚ) / 2⌋,
            offsetY := 0 }
        else
          { drawWidth := targetW,
            drawHeight := ⌈(targetW : ℚ) / ((srcW : ℚ) / (srcH : ℚ))⌉,
            offsetX := 0,
            offsetY := ⌊((targetH
                - ⌈(targetW : ℚ) / ((srcW : ℚ) / (srcH : ℚ))⌉ : Int) : ℚ) / 2⌋ } :=
  rfl

lemma compose_contain_eq (srcW srcH targetW targetH : Int) :
    compose srcW srcH targetW targetH true .contain
      = if (targetW : ℚ) / (targetH : ℚ) < (srcW : ℚ) / (srcH : ℚ) then
          { drawWidth := targetW,
            drawHeight := ⌊(targetW : ℚ) / ((srcW : ℚ) / (srcH : ℚ))⌋,
            offsetX := 0,
            offsetY := ⌊((targetH
                - ⌊(targetW : ℚ) / ((srcW : ℚ) / (srcH : ℚ))⌋ : Int) : ℚ) / 2⌋ }
        else
          { drawWidth := ⌊(targetH : ℚ) * ((srcW : ℚ) / (srcH : ℚ))⌋,
            drawHeight := targetH,
            offsetX := ⌊((targetW
                - ⌊(targetH : ℚ) * ((srcW : ℚ) / (srcH : ℚ))⌋ : Int) : ℚ) / 2⌋,
            offsetY := 0 } :=
  rfl

/-- C1: with `maintainAspect` true, for positive sources and clamped targets
in `[1, 8000]^2` the code's geometry agrees exactly with the spec's branch
formulas for cover and contain, including the strict `>` tie-break. -/
theorem compose_matches_spec (srcW srcH targetW targetH : Int)
    (hsw : 0 < srcW) (hsh : 0 < srcH)
    (hw1 : 1 ≤ targetW) (hw2 : targetW ≤ 8000)
    (hh1 : 1 ≤ targetH) (hh2 : targetH ≤ 8000) (fit : FitMode) :
    compose srcW srcH targetW targetH true fit
      = composeSpecAspect srcW srcH targetW targetH fit := by
  cases fit <;> rfl

/-- C1 witness: the agreement at the concrete source 1000x500 and target
512x512 with policy cover. -/
theorem compose_matches_spec_w :
    ((0 : Int) < 1000 ∧ (0 : Int) < 500 ∧ (1 : Int) ≤ 512 ∧ (512 : Int) ≤ 8000)
    ∧ compose 1000 500 512 512 true .cover
        = composeSpecAspect 1000 500 512 512 .cover :=
  ⟨⟨by decide, by decide, by decide, by decide⟩,
    compose_matches_spec 1000 500 512 512 (by decide) (by decide) (by decide)
      (by decide) (by decide) (by decide) .cover⟩

/-- C4: with `maintainAspect` false the policy is ignored and the geometry is
the full target rectangle at the origin. -/
theorem stretch_ignores_policy (srcW srcH targetW targetH : Int)
    (hsw : 0 < srcW) (hsh : 0 < srcH)
    (hw1 : 1 ≤ targetW) (hw2 : targetW ≤ 8000)
    (hh1 : 1 ≤ targetH) (hh2 : targetH ≤ 8000) (fit : FitMode) :
    compose srcW srcH targetW targetH false fit
      = { drawWidth := targetW, drawHeight := targetH,
          offsetX := 0, offsetY := 0 } :=
  rfl

/-- C4 witness: the stretch geometry at the concrete source 500x1000 and
target 800x600 with policy contain. -/
theorem stretch_ignores_policy_w :
    ((0 : Int) < 500 ∧ (0 : Int) < 1000 ∧ (1 : Int) ≤ 800 ∧ (800 : Int) ≤ 8000)
    ∧ compose 500 1000 800 600 false .contain
        = { drawWidth := 800, drawHeight := 600,
            offsetX := 0, offsetY := 0 } :=
  ⟨⟨by decide, by decide, by decide, by decide⟩,
    stretch_ignores_policy 500 1000 800 600 (by decide) (by decide) (by decide)
      (by decide) (by decide) (by decide) .contain⟩

/-- C6: when the source and target aspect ratios are exactly equal, the cover
and contain policies return exactly the same geometry. -/
theorem equal_aspect_cover_eq_contain (srcW srcH targetW targetH : Int)
    (hsw : 0 < srcW) (hsh : 0 < srcH) (htw : 0 < targetW) (hth : 0 < targetH)
    (hAR : (srcW : ℚ) / (srcH : ℚ) = (targetW : ℚ) / (targetH : ℚ)) :
    compose srcW srcH targetW targetH true .cover
      = compose srcW srcH targetW targetH true .contain := by
  have hWq : (0 : ℚ) < (targetW : ℚ) := by exact_mod_cast htw
  have hHq : (0 : ℚ) < (targetH : ℚ) := by exact_mod_cast hth
  have hW0 : (targetW : ℚ) ≠ 0 := ne_of_gt hWq
  have hH0 : (targetH : ℚ) ≠ 0 := ne_of_gt hHq
  rw [compose_cover_eq, compose_contain_eq, hAR]
  rw [if_neg (lt_irrefl _), if_neg (lt_irrefl _)]
  have e1 : (targetW : ℚ) / ((targetW : ℚ) / (targetH : ℚ)) = (targetH : ℚ) := by
    field_simp
  have e2 : (targetH : ℚ) * ((targetW : ℚ) / (targetH : ℚ)) = (targetW : ℚ) := by
    field_simp
  rw [e1, e2, Int.ceil_intCast, Int.floor_intCast]
  simp

lemma coversTarget_pointwise {g : Geometry} {W H : Int}
    (h : coversTarget g W H) :
    ∀ x y : Int, 0 ≤ x → x < W → 0 ≤ y → y < H →
      (g.offsetX ≤ x ∧ x < g.offsetX + g.drawWidth
        ∧ g.offsetY ≤ y ∧ y < g.offsetY + g.drawHeight) := by
  obtain ⟨_, _, _, h4, h5, h6, h7⟩ := h
  intro x y hx1 hx2 hy1 hy2
  exact ⟨le_trans h4 hx1, lt_of_lt_of_le hx2 h6,
    le_trans h5 hy1, lt_of_lt_of_le hy2 h7⟩

/-- C3: with policy cover, both drawn dimensions reach the target's with at
least one exactly equal, and the drawn rectangle intersected with the target
bounds is the whole target: every target point lies inside the drawn
rectangle. -/
theorem cover_covers_target (srcW srcH targetW targetH : Int)
    (hsw : 0 < srcW) (hsh : 0 < srcH)
    (hw1 : 1 ≤ targetW) (hw2 : targetW ≤ 8000)
    (hh1 : 1 ≤ targetH) (hh2 : targetH ≤ 8000) :
    coversTarget (compose srcW srcH targetW targetH true .cover)
        targetW targetH
    ∧ ∀ x y : Int, 0 ≤ x → x < targetW → 0 ≤ y → y < targetH →
        ((compose srcW srcH targetW targetH true .cover).offsetX ≤ x
          ∧ x < (compose srcW srcH targetW targetH true .cover).offsetX
              + (compose srcW srcH targetW targetH true .cover).drawWidth
          ∧ (compose srcW srcH targetW targetH true .cover).offsetY ≤ y
          ∧ y < (compose srcW srcH targetW targetH true .cover).offsetY
              + (compose srcW srcH targetW targetH true .cover).drawHeight) := by
  have hA : (0 : ℚ) < (srcW : ℚ) / (srcH : ℚ) :=
    div_pos (by exact_mod_cast hsw) (by exact_mod_cast hsh)
  have hWq : (0 : ℚ) < (targetW : ℚ) := by
    have : (0 : Int) < targetW := by omega
    exact_mod_cast this
  have hHq : (0 : ℚ) < (targetH : ℚ) := by
    have : (0 : Int) < targetH := by omega
    exact_mod_cast this
  have hcov : coversTarget (compose srcW srcH targetW targetH true .cover)
      targetW targetH := by
    rw [compose_cover_eq]
    split_ifs with hAR
    · -- source relatively wider: height matches, width overflows
      have key : (targetW : ℚ) < (targetH : ℚ) * ((srcW : ℚ) / (srcH : ℚ)) := by
        rw [div_lt_iff hHq] at hAR
        linarith [mul_comm (targetH : ℚ) ((srcW : ℚ) / (srcH : ℚ))]
      have hdW : targetW < ⌈(targetH : ℚ) * ((srcW : ℚ) / (srcH : ℚ))⌉ :=
        Int.lt_ceil.mpr key
      have hdWc : (targetW : ℚ)
          ≤ ((⌈(targetH : ℚ) * ((srcW : ℚ) / (srcH : ℚ))⌉ : Int) : ℚ) := by
        exact_mod_cast le_of_lt hdW
      have hdx : ⌊((targetW
          - ⌈(targetH : ℚ) * ((srcW : ℚ) / (srcH : ℚ))⌉ : Int) : ℚ) / 2⌋ ≤ 0 := by
        apply Int.floor_nonpos
        have hnum : ((targetW
            - ⌈(targetH : ℚ) * ((srcW : ℚ) / (srcH : ℚ))⌉ : Int) : ℚ) ≤ 0 := by
          push_cast
          linarith
        linarith
      have hsum : targetW
          ≤ ⌊((targetW
              - ⌈(targetH : ℚ) * ((srcW : ℚ) / (srcH : ℚ))⌉ : Int) : ℚ) / 2⌋
            + ⌈(targetH : ℚ) * ((srcW : ℚ) / (srcH : ℚ))⌉ := by
        have h2 := Int.sub_one_lt_floor
          (((targetW - ⌈(targetH : ℚ) * ((srcW : ℚ) / (srcH : ℚ))⌉ : Int) : ℚ) / 2)
        have h3 : (targetW : ℚ) - 1
            < ((⌊((targetW
                - ⌈(targetH : ℚ) * ((srcW : ℚ) / (srcH : ℚ))⌉ : Int) : ℚ) / 2⌋
                + ⌈(targetH : ℚ) * ((srcW : ℚ) / (srcH : ℚ))⌉ : Int) : ℚ) := by
          push_cast at h2 ⊢
          linarith
        have h4 : targetW - 1
            < ⌊((targetW
                - ⌈(targetH : ℚ) * ((srcW : ℚ) / (srcH : ℚ))⌉ : Int) : ℚ) / 2⌋
              + ⌈(targetH : ℚ) * ((srcW : ℚ) / (srcH : ℚ))⌉ := by
          exact_mod_cast h3
        omega
      exact ⟨le_of_lt hdW, le_refl _, Or.inr rfl, hdx, le_refl _, hsum,
        by dsimp only; omega⟩
    · -- source relatively taller or equal: width matches, height overflows
      have hAle : (srcW : ℚ) / (srcH : ℚ) ≤ (targetW : ℚ) / (targetH : ℚ) :=
        not_lt.mp hAR
      have key : (targetH : ℚ) ≤ (targetW : ℚ) / ((srcW : ℚ) / (srcH : ℚ)) := by
        rw [le_div_iff hA]
        rw [le_div_iff hHq] at hAle
        linarith [mul_comm (targetH : ℚ) ((srcW : ℚ) / (srcH : ℚ))]
      have hdH : targetH ≤ ⌈(targetW : ℚ) / ((srcW : ℚ) / (srcH : ℚ))⌉ := by
        have := Int.ceil_mono key
        rwa [Int.ceil_intCast] at this
      have hdHc : (targetH : ℚ)
          ≤ ((⌈(targetW : ℚ) / ((srcW : ℚ) / (srcH : ℚ))⌉ : Int) : ℚ) := by
        exact_mod_cast hdH
      have hdy : ⌊((targetH
          - ⌈(targetW : ℚ) / ((srcW : ℚ) / (srcH : ℚ))⌉ : Int) : ℚ) / 2⌋ ≤ 0 := by
        apply Int.floor_nonpos
        have hnum : ((targetH
            - ⌈(targetW : ℚ) / ((srcW : ℚ) / (srcH : ℚ))⌉ : Int) : ℚ) ≤ 0 := by
          push_cast
          linarith
        linarith
      have hsum : targetH
          ≤ ⌊((targetH
              - ⌈(targetW : ℚ) / ((srcW : ℚ) / (srcH : ℚ))⌉ : Int) : ℚ) / 2⌋
            + ⌈(targetW : ℚ) / ((srcW : ℚ) / (srcH : ℚ))⌉ := by
        have h2 := Int.sub_one_lt_floor
          (((targetH - ⌈(targetW : ℚ) / ((srcW : ℚ) / (srcH : ℚ))⌉ : Int) : ℚ) / 2)
        have h3 : (targetH : ℚ) - 1
            < ((⌊((targetH
                - ⌈(targetW : ℚ) / ((srcW : ℚ) / (srcH : ℚ))⌉ : Int) : ℚ) / 2⌋
                + ⌈(targetW : ℚ) / ((srcW : ℚ) / (srcH : ℚ))⌉ : Int) : ℚ) := by
          push_cast at h2 ⊢
          linarith
        have h4 : targetH - 1
            < ⌊((targetH
                - ⌈(targetW : ℚ) / ((srcW : ℚ) / (srcH : ℚ))⌉ : Int) : ℚ) / 2⌋
              + ⌈(targetW : ℚ) / ((srcW : ℚ) / (srcH : ℚ))⌉ := by
          exact_mod_cast h3
        omega
      exact ⟨le_refl _, hdH, Or.inl rfl, le_refl _, hdy, by dsimp only; omega,
        hsum⟩
  exact ⟨hcov, coversTarget_pointwise hcov⟩

/-- C3 witness: cover of the concrete source 1000x500 into target 512x512. -/
theorem cover_covers_target_w :
    ((0 : Int) < 1000 ∧ (0 : Int) < 500 ∧ (1 : Int) ≤ 512 ∧ (512 : Int) ≤ 8000)
    ∧ coversTarget (compose 1000 500 512 512 true .cover) 512 512 :=
  ⟨⟨by decide, by decide, by decide, by decide⟩,
    (cover_covers_target 1000 500 512 512 (by decide) (by decide) (by decide)
      (by decide) (by decide) (by decide)).1⟩

/-- C2: with policy contain, the geometry fits entirely within the target
bounds with nonnegative offsets, and at least one drawn dimension exactly
equals the corresponding target dimension. -/
theorem contain_fits_within_target (srcW srcH targetW targetH : Int)
    (hsw : 0 < srcW) (hsh : 0 < srcH)
    (hw1 : 1 ≤ targetW) (hw2 : targetW ≤ 8000)
    (hh1 : 1 ≤ targetH) (hh2 : targetH ≤ 8000) :
    fitsWithinTarget (compose srcW srcH targetW targetH true .contain)
      targetW targetH := by
  have hA : (0 : ℚ) < (srcW : ℚ) / (srcH : ℚ) :=
    div_pos (by exact_mod_cast hsw) (by exact_mod_cast hsh)
  have hWq : (0 : ℚ) < (targetW : ℚ) := by
    have : (0 : Int) < targetW := by omega
    exact_mod_cast this
  have hHq : (0 : ℚ) < (targetH : ℚ) := by
    have : (0 : Int) < targetH := by omega
    exact_mod_cast this
  rw [compose_contain_eq]
  split_ifs with hAR
  · -- source relatively wider: width matches, height letterboxed
    have hlt : (targetW : ℚ) / ((srcW : ℚ) / (srcH : ℚ)) < (targetH : ℚ) := by
      rw [div_lt_iff hA]
      rw [div_lt_iff hHq] at hAR
      linarith [mul_comm (targetH : ℚ) ((srcW : ℚ) / (srcH : ℚ))]
    have hdH_lt : ⌊(targetW : ℚ) / ((srcW : ℚ) / (srcH : ℚ))⌋ < targetH :=
      Int.floor_lt.mpr hlt
    have hdH_nn : 0 ≤ ⌊(targetW : ℚ) / ((srcW : ℚ) / (srcH : ℚ))⌋ :=
      Int.floor_nonneg.mpr (le_of_lt (div_pos hWq hA))
    have hdy_nn : 0 ≤ ⌊((targetH
        - ⌊(targetW : ℚ) / ((srcW : ℚ) / (srcH : ℚ))⌋ : Int) : ℚ) / 2⌋ := by
      apply Int.floor_nonneg.mpr
      have hnum : (0 : ℚ) ≤ ((targetH
          - ⌊(targetW : ℚ) / ((srcW : ℚ) / (srcH : ℚ))⌋ : Int) : ℚ) := by
        push_cast
        have : ((⌊(targetW : ℚ) / ((srcW : ℚ) / (srcH : ℚ))⌋ : Int) : ℚ)
            ≤ (targetH : ℚ) := by exact_mod_cast le_of_lt hdH_lt
        linarith
      linarith
    have hsum : ⌊((targetH
        - ⌊(targetW : ℚ) / ((srcW : ℚ) / (srcH : ℚ))⌋ : Int) : ℚ) / 2⌋
          + ⌊(targetW : ℚ) / ((srcW : ℚ) / (srcH : ℚ))⌋ ≤ targetH := by
      have h5 := Int.floor_le
        (((targetH - ⌊(targetW : ℚ) / ((srcW : ℚ) / (srcH : ℚ))⌋ : Int) : ℚ) / 2)
      have hc : ((⌊(targetW : ℚ) / ((srcW : ℚ) / (srcH : ℚ))⌋ : Int) : ℚ)
          ≤ (targetH : ℚ) := by exact_mod_cast le_of_lt hdH_lt
      have h6 : ((⌊((targetH
          - ⌊(targetW : ℚ) / ((srcW : ℚ) / (srcH : ℚ))⌋ : Int) : ℚ) / 2⌋
            + ⌊(targetW : ℚ) / ((srcW : ℚ) / (srcH : ℚ))⌋ : Int) : ℚ)
          ≤ (targetH : ℚ) := by
        push_cast at h5 ⊢
        linarith
      exact_mod_cast h6
    exact ⟨le_refl _, hdy_nn, by dsimp only; omega, hsum, Or.inl rfl⟩
  · -- source relatively taller or equal: height matches, width pillarboxed
    have hAle : (srcW : ℚ) / (srcH : ℚ) ≤ (targetW : ℚ) / (targetH : ℚ) :=
      not_lt.mp hAR
    have hle : (targetH : ℚ) * ((srcW : ℚ) / (srcH : ℚ)) ≤ (targetW : ℚ) := by
      rw [le_div_iff hHq] at hAle
      linarith [mul_comm (targetH : ℚ) ((srcW : ℚ) / (srcH : ℚ))]
    have hdW_le : ⌊(targetH : ℚ) * ((srcW : ℚ) / (srcH : ℚ))⌋ ≤ targetW := by
      have := Int.floor_mono hle
      rwa [Int.floor_intCast] at this
    have hdW_nn : 0 ≤ ⌊(targetH : ℚ) * ((srcW : ℚ) / (srcH : ℚ))⌋ :=
      Int.floor_nonneg.mpr (le_of_lt (mul_pos hHq hA))
    have hdx_nn : 0 ≤ ⌊((targetW
        - ⌊(targetH : ℚ) * ((srcW : ℚ) / (srcH : ℚ))⌋ : Int) : ℚ) / 2⌋ := by
      apply Int.floor_nonneg.mpr
      have hnum : (0 : ℚ) ≤ ((targetW
          - ⌊(targetH : ℚ) * ((srcW : ℚ) / (srcH : ℚ))⌋ : Int) : ℚ) := by
        push_cast
        have : ((⌊(targetH : ℚ) * ((srcW : ℚ) / (srcH : ℚ))⌋ : Int) : ℚ)
            ≤ (targetW : ℚ) := by exact_mod_cast hdW_le
        linarith
      linarith
    have hsum : ⌊((targetW
        - ⌊(targetH : ℚ) * ((srcW : ℚ) / (srcH : ℚ))⌋ : Int) : ℚ) / 2⌋
          + ⌊(targetH : ℚ) * ((srcW : ℚ) / (srcH : ℚ))⌋ ≤ targetW := by
      have h5 := Int.floor_le
        (((targetW - ⌊(targetH : ℚ) * ((srcW : ℚ) / (srcH : ℚ))⌋ : Int) : ℚ) / 2)
      have hc : ((⌊(targetH : ℚ) * ((srcW : ℚ) / (srcH : ℚ))⌋ : Int) : ℚ)
          ≤ (targetW : ℚ) := by exact_mod_cast hdW_le
      have h6 : ((⌊((targetW
          - ⌊(targetH : ℚ) * ((srcW : ℚ) / (srcH : ℚ))⌋ : Int) : ℚ) / 2⌋
            + ⌊(targetH : ℚ) * ((srcW : ℚ) / (srcH : ℚ))⌋ : Int) : ℚ)
          ≤ (targetW : ℚ) := by
        push_cast at h5 ⊢
        linarith
      exact_mod_cast h6
    exact ⟨hdx_nn, le_refl _, hsum, by dsimp only; omega, Or.inr rfl⟩

/-- C2 witness: contain of the concrete source 1000x500 into target 512x512. -/
theorem contain_fits_within_target_w :
    ((0 : Int) < 1000 ∧ (0 : Int) < 500 ∧ (1 : Int) ≤ 512 ∧ (512 : Int) ≤ 8000)
    ∧ fitsWithinTarget (compose 1000 500 512 512 true .contain) 512 512 :=
  ⟨⟨by decide, by decide, by decide, by decide⟩,
    contain_fits_within_target 1000 500 512 512 (by decide) (by decide)
      (by decide) (by decide) (by decide) (by decide)⟩

/-- C5 counterexample: the source 10000x1 is positive and the target 512x512
is clamped in range, yet the contain geometry's drawHeight is 0, not strictly
positive. -/
theorem contain_drawHeight_zero_cex :
    ((0 : Int) < 10000 ∧ (0 : Int) < 1 ∧ (1 : Int) ≤ 512 ∧ (512 : Int) ≤ 8000)
    ∧ (compose 10000 1 512 512 true .contain).drawHeight = 0
    ∧ ¬ (0 < (compose 10000 1 512 512 true .contain).drawHeight) := by
  refine ⟨⟨by decide, by decide, by decide, by decide⟩, ?_⟩
  have h : (compose 10000 1 512 512 true .contain).drawHeight = 0 := by
    norm_num [compose]
    decide
  exact ⟨h, by rw [h]; decide⟩

/-- C5 amended: for positive sources and clamped targets in `[1, 8000]^2`,
the cover geometry's drawWidth and drawHeight are strictly positive; the
contain geometry's drawWidth and drawHeight are nonnegative and at least one
of them (the matched target dimension) is strictly positive, but the floored
scaled dimension can be zero for extremely skewed aspect ratios. -/
theorem cover_pos_contain_nonneg (srcW srcH targetW targetH : Int)
    (hsw : 0 < srcW) (hsh : 0 < srcH)
    (hw1 : 1 ≤ targetW) (hw2 : targetW ≤ 8000)
    (hh1 : 1 ≤ targetH) (hh2 : targetH ≤ 8000) :
    (0 < (compose srcW srcH targetW targetH true .cover).drawWidth
      ∧ 0 < (compose srcW srcH targetW targetH true .cover).drawHeight)
    ∧ (0 ≤ (compose srcW srcH targetW targetH true .contain).drawWidth
      ∧ 0 ≤ (compose srcW srcH targetW targetH true .contain).drawHeight
      ∧ (0 < (compose srcW srcH targetW targetH true .contain).drawWidth
          ∨ 0 < (compose srcW srcH targetW targetH true .contain).drawHeight)) := by
  have hA : (0 : ℚ) < (srcW : ℚ) / (srcH : ℚ) :=
    div_pos (by exact_mod_cast hsw) (by exact_mod_cast hsh)
  have hWq : (0 : ℚ) < (targetW : ℚ) := by
    have : (0 : Int) < targetW := by omega
    exact_mod_cast this
  have hHq : (0 : ℚ) < (targetH : ℚ) := by
    have : (0 : Int) < targetH := by omega
    exact_mod_cast this
  rw [compose_cover_eq, compose_contain_eq]
  split_ifs with hAR
  · exact ⟨⟨Int.ceil_pos.mpr (mul_pos hHq hA), by dsimp only; omega⟩,
      ⟨by dsimp only; omega, Int.floor_nonneg.mpr (le_of_lt (div_pos hWq hA)),
        Or.inl (by dsimp only; omega)⟩⟩
  · exact ⟨⟨by dsimp only; omega, Int.ceil_pos.mpr (div_pos hWq hA)⟩,
      ⟨Int.floor_nonneg.mpr (le_of_lt (mul_pos hHq hA)), by dsimp only; omega,
        Or.inr (by dsimp only; omega)⟩⟩

/-- C5 amended witness: the positivity facts at the concrete source 1000x500
and target 512x512. -/
theorem cover_pos_contain_nonneg_w :
    ((0 : Int) < 1000 ∧ (0 : Int) < 500 ∧ (1 : Int) ≤ 512 ∧ (512 : Int) ≤ 8000)
    ∧ 0 < (compose 1000 500 512 512 true .cover).drawWidth
    ∧ 0 < (compose 1000 500 512 512 true .cover).drawHeight :=
  ⟨⟨by decide, by decide, by decide, by decide⟩,
    (cover_pos_contain_nonneg 1000 500 512 512 (by decide) (by decide)
      (by decide) (by decide) (by decide) (by decide)).1⟩

/-- C6 witness: cover and contain agree at the concrete source 512x256 and
target 512x256, whose aspect ratios are equal. -/
theorem equal_aspect_cover_eq_contain_w :
    ((0 : Int) < 512 ∧ (0 : Int) < 256
      ∧ ((512 : Int) : ℚ) / ((256 : Int) : ℚ) = ((512 : Int) : ℚ) / ((256 : Int) : ℚ))
    ∧ compose 512 256 512 256 true .cover
        = compose 512 256 512 256 true .contain :=
  ⟨⟨by decide, by decide, rfl⟩,
    equal_aspect_cover_eq_contain 512 256 512 256 (by decide) (by decide)
      (by decide) (by decide) rfl⟩

end ResizeIt
